import Mathlib

/-!
Verification of alpha-ema-cross-watcher (src/watcher.py) against its
specification. The program polls a signed market-data API, computes two
EMA series per token, detects strict upward crossovers over a lookback
window, and sends alerts. We embed the core functions shallowly:
prices as rationals, NaN-able indicator values as `Option ℚ`, pandas
frames as lists, exceptions as `Option` results.
-/

namespace AlphaWatcher

/-! ## IndicatorEngine: EMA series

Modelled from the spec: the EMA computation is delegated by
`calc_ema_series` (watcher.py line 137) to the external `ta` library
(`ta.trend.EMAIndicator(...).ema_indicator()`), whose code is not part of
this repository. Following spec §4.3: indices `0..window-2` undefined,
index `window-1` the arithmetic mean of the first `window` closes, and
`ema[i] = closes[i] * k + ema[i-1] * (1 - k)` with `k = 2 / (window + 1)`
for `i ≥ window`. -/

/-- Recursive tail of the EMA series: given coefficient `k` and the
previous EMA value, produce the EMA values for the remaining closes. -/
def emaRecAux (k : ℚ) : ℚ → List ℚ → List ℚ
  | _, [] => []
  | prev, c :: cs => (c * k + prev * (1 - k)) :: emaRecAux k (c * k + prev * (1 - k)) cs

/-- Arithmetic mean of the first `window` closes (the SMA seed). -/
def sma (close : List ℚ) (window : ℕ) : ℚ := (close.take window).sum / (window : ℚ)

/-- Modelled from the spec: `calc_ema_series` (watcher.py line 137-138).
Output is index-aligned with `close`; `none` marks an undefined entry. -/
def calc_ema_series (close : List ℚ) (window : ℕ) : List (Option ℚ) :=
  if window = 0 ∨ close.length < window then List.replicate close.length none
  else
    List.replicate (window - 1) (none : Option ℚ) ++
      (sma close window ::
        emaRecAux (2 / ((window : ℚ) + 1)) (sma close window) (close.drop window)).map some

lemma length_emaRecAux (k : ℚ) (e : ℚ) (l : List ℚ) :
    (emaRecAux k e l).length = l.length := by
  induction l generalizing e with
  | nil => rfl
  | cons c cs ih => simp [emaRecAux, ih]

lemma length_calc_ema_series (close : List ℚ) (window : ℕ) :
    (calc_ema_series close window).length = close.length := by
  unfold calc_ema_series
  by_cases h : window = 0 ∨ close.length < window
  · simp [h]
  · push_neg at h
    simp [h.1, Nat.not_lt.mpr h.2, length_emaRecAux]
    omega

/-- Core recurrence for the seeded EMA list `e :: emaRecAux k e l`:
consecutive entries satisfy the EMA recurrence against `l`. -/
lemma emaCons_rel (k : ℚ) (e : ℚ) (l : List ℚ) :
    ∀ j : ℕ, ∀ c : ℚ, l[j]? = some c →
      ∃ b : ℚ, (e :: emaRecAux k e l)[j]? = some b ∧
        (e :: emaRecAux k e l)[j + 1]? = some (c * k + b * (1 - k)) := by
  induction l generalizing e with
  | nil => intro j c hc; simp at hc
  | cons c0 cs ih =>
    intro j c hc
    cases j with
    | zero =>
      simp at hc
      subst hc
      refine ⟨e, rfl, ?_⟩
      simp [emaRecAux]
    | succ j =>
      simp only [List.getElem?_cons_succ] at hc
      obtain ⟨b, hb1, hb2⟩ := ih (c0 * k + e * (1 - k)) j c hc
      refine ⟨b, ?_, ?_⟩
      · rw [List.getElem?_cons_succ]
        simp only [emaRecAux]
        exact hb1
      · rw [List.getElem?_cons_succ]
        simp only [emaRecAux]
        exact hb2

lemma emaRecAux_const (k : ℚ) (c : ℚ) (m : ℕ) :
    emaRecAux k c (List.replicate m c) = List.replicate m c := by
  induction m with
  | zero => rfl
  | succ m ih =>
    have hv : c * k + c * (1 - k) = c := by ring
    simp [List.replicate_succ, emaRecAux, hv, ih]

lemma sma_replicate (n w : ℕ) (c : ℚ) (hw : 0 < w) (hn : w ≤ n) :
    sma (List.replicate n c) w = c := by
  unfold sma
  rw [List.take_replicate, min_eq_left hn, List.sum_replicate]
  rw [nsmul_eq_mul]
  have hw0 : (w : ℚ) ≠ 0 := by
    exact_mod_cast Nat.pos_iff_ne_zero.mp hw
  field_simp

/-- C6: for a constant close-price sequence, every defined EMA value
equals that constant, for every positive window not exceeding the
sequence length. -/
theorem calc_ema_series_const (n w : ℕ) (c : ℚ) (hw : 0 < w) (hn : w ≤ n) :
    ∀ i : ℕ, ∀ v : ℚ,
      (calc_ema_series (List.replicate n c) w)[i]? = some (some v) → v = c := by
  intro i v hv
  have hmem : (some v : Option ℚ) ∈ calc_ema_series (List.replicate n c) w := by
    rw [List.getElem?_eq_some] at hv
    obtain ⟨h, hval⟩ := hv
    exact hval ▸ List.getElem_mem h
  unfold calc_ema_series at hmem
  have hcond : ¬ (w = 0 ∨ (List.replicate n c).length < w) := by
    simp only [List.length_replicate]
    omega
  rw [if_neg hcond] at hmem
  rw [sma_replicate n w c hw hn, List.drop_replicate, emaRecAux_const] at hmem
  rcases List.mem_append.mp hmem with hL | hR
  · exact absurd (List.eq_of_mem_replicate hL) (by simp)
  · rcases List.mem_map.mp hR with ⟨x, hx, hxeq⟩
    have hvx : x = v := Option.some.inj hxeq
    subst hvx
    rcases List.mem_cons.mp hx with h0 | h1
    · exact h0
    · exact List.eq_of_mem_replicate h1

lemma calc_get_lt (close : List ℚ) (w : ℕ) (hw : 0 < w) (hlen : w ≤ close.length)
    (i : ℕ) (hi : i < w - 1) :
    (calc_ema_series close w)[i]? = some none := by
  unfold calc_ema_series
  rw [if_neg (by omega)]
  rw [List.getElem?_append, if_pos (by simpa using hi), List.getElem?_replicate,
    if_pos hi]

lemma calc_get_ge (close : List ℚ) (w : ℕ) (hw : 0 < w) (hlen : w ≤ close.length)
    (i : ℕ) (hi : w - 1 ≤ i) :
    (calc_ema_series close w)[i]? =
      Option.map some
        ((sma close w ::
          emaRecAux (2 / ((w : ℚ) + 1)) (sma close w) (close.drop w))[i - (w - 1)]?) := by
  unfold calc_ema_series
  rw [if_neg (by omega)]
  rw [List.getElem?_append, if_neg (by simp; omega), List.getElem?_map]
  simp

/-- C1: for a positive window not exceeding the series length,
`calc_ema_series` returns a series of identical length whose indices
`0..window-2` are undefined, whose index `window-1` is the arithmetic
mean of the first `window` closes, and whose indices `i ≥ window`
satisfy `ema[i] = closes[i] * k + ema[i-1] * (1 - k)` with
`k = 2 / (window + 1)`. -/
theorem calc_ema_series_spec (close : List ℚ) (window : ℕ)
    (hw : 0 < window) (hlen : window ≤ close.length) :
    (calc_ema_series close window).length = close.length ∧
    (∀ i : ℕ, i < window - 1 → (calc_ema_series close window)[i]? = some none) ∧
    (calc_ema_series close window)[window - 1]? = some (some (sma close window)) ∧
    (∀ i : ℕ, ∀ c : ℚ, window ≤ i → close[i]? = some c →
      ∃ a b : ℚ, (calc_ema_series close window)[i]? = some (some a) ∧
        (calc_ema_series close window)[i - 1]? = some (some b) ∧
        a = c * (2 / ((window : ℚ) + 1)) +
          b * (1 - 2 / ((window : ℚ) + 1))) := by
  refine ⟨length_calc_ema_series close window, ?_, ?_, ?_⟩
  · intro i hi
    exact calc_get_lt close window hw hlen i hi
  · rw [calc_get_ge close window hw hlen (window - 1) le_rfl]
    simp
  · intro i c hiw hc
    set k : ℚ := 2 / ((window : ℚ) + 1) with hk
    set seed : ℚ := sma close window with hseed
    set D : List ℚ := close.drop window with hD
    have hDj : D[i - window]? = some c := by
      rw [hD, List.getElem?_drop]
      rw [show window + (i - window) = i from by omega]
      exact hc
    obtain ⟨b, hb1, hb2⟩ := emaCons_rel k seed D (i - window) c hDj
    refine ⟨c * k + b * (1 - k), b, ?_, ?_, rfl⟩
    · rw [calc_get_ge close window hw hlen i (by omega)]
      rw [show i - (window - 1) = (i - window) + 1 from by omega]
      rw [hb2]
      rfl
    · rw [calc_get_ge close window hw hlen (i - 1) (by omega)]
      rw [show (i - 1) - (window - 1) = i - window from by omega]
      rw [hb1]
      rfl

/-- C1 witness: instance at `close = [1, 3]`, `window = 2`; index 1 holds
the arithmetic mean of the first two closes. -/
theorem calc_ema_series_spec_witness :
    (calc_ema_series [(1 : ℚ), 3] 2)[2 - 1]? = some (some (sma [(1 : ℚ), 3] 2)) :=
  (calc_ema_series_spec [(1 : ℚ), 3] 2 (by decide) (by decide)).2.2.1

/-- C6 witness: concrete instance with a constant series. -/
theorem calc_ema_series_const_witness : (5 : ℚ) = 5 :=
  calc_ema_series_const 3 2 5 (by decide) (by decide) 1 5 (by
    norm_num [calc_ema_series, sma, emaRecAux, List.replicate])

/-! ## CrossoverDetector (watcher.py lines 140-148) -/

/-- One row of the frame as `detect_strict_cross` sees it: the fast and
slow EMA column values, with `none` for NaN. -/
abbrev Row := Option ℚ × Option ℚ

/-- `df.iloc[i]` with python semantics: a negative index counts from the
end; an out-of-range access raises, modelled as `none`. -/
def iloc {α : Type} (df : List α) (i : Int) : Option α :=
  if i < 0 then
    if (df.length : Int) + i < 0 then none
    else df[((df.length : Int) + i).toNat]?
  else df[i.toNat]?

/-- The notna/compare test on a prev/curr pair of rows (watcher.py lines
145-146): all four values defined, `prev.fast ≤ prev.slow`, and
`curr.fast > curr.slow`. -/
def crossHit (prev curr : Row) : Bool :=
  match prev, curr with
  | (some pf, some ps), (some cf, some cs) => decide (pf ≤ ps) && decide (cs < cf)
  | _, _ => false

/-- The offsets `range(-lookback, 0)` scanned by the detector, in
ascending order. -/
def offsetRange (lookback : ℕ) : List Int :=
  (List.range lookback).map (fun (j : ℕ) => ((j : Int) - (lookback : Int)))

/-- Whether the detector emits offset `i` on frame `df`. -/
def crossHitAt (df : List Row) (i : Int) : Bool :=
  match iloc df (i - 1), iloc df i with
  | some p, some c => crossHit p c
  | _, _ => false

/-- Scan a list of offsets; `none` models an uncaught IndexError from
`iloc`. -/
def detectFrom (df : List Row) : List Int → Option (List Int)
  | [] => some []
  | i :: rest =>
    match iloc df (i - 1), iloc df i with
    | some p, some c =>
      (detectFrom df rest).map (fun tl => if crossHit p c then i :: tl else tl)
    | _, _ => none

/-- `detect_strict_cross` (watcher.py lines 140-148). -/
def detect_strict_cross (df : List Row) (lookback : ℕ) : Option (List Int) :=
  detectFrom df (offsetRange lookback)

lemma getElem?_isSome_iff {α : Type} (l : List α) (i : ℕ) :
    l[i]?.isSome = true ↔ i < l.length := by
  rw [Option.isSome_iff_exists]
  constructor
  · rintro ⟨a, ha⟩
    exact (List.getElem?_eq_some.mp ha).1
  · intro h
    exact ⟨l[i], List.getElem?_eq_getElem h⟩

lemma iloc_isSome_iff {α : Type} (df : List α) (i : Int) :
    (iloc df i).isSome ↔ (-(df.length : Int) ≤ i ∧ i < (df.length : Int)) := by
  unfold iloc
  by_cases hi : i < 0
  · rw [if_pos hi]
    by_cases hj : (df.length : Int) + i < 0
    · rw [if_pos hj]
      simp only [Option.isSome_none, Bool.false_eq_true, false_iff]
      omega
    · rw [if_neg hj]
      rw [getElem?_isSome_iff]
      omega
  · rw [if_neg hi]
    rw [getElem?_isSome_iff]
    omega

lemma mem_offsetRange (lb : ℕ) (i : Int) :
    i ∈ offsetRange lb ↔ (-(lb : Int) ≤ i ∧ i < 0) := by
  unfold offsetRange
  rw [List.mem_map]
  constructor
  · rintro ⟨j, hj, hji⟩
    rw [List.mem_range] at hj
    omega
  · intro h
    refine ⟨(i + lb).toNat, ?_, ?_⟩
    · rw [List.mem_range]
      omega
    · omega

lemma offsetRange_pairwise (lb : ℕ) :
    List.Pairwise (· < ·) (offsetRange lb) := by
  unfold offsetRange
  rw [List.pairwise_map]
  refine (List.pairwise_lt_range lb).imp ?_
  intro a b hab
  show (a : Int) - (lb : Int) < (b : Int) - (lb : Int)
  omega

lemma detectFrom_eq_filter (df : List Row) (offs : List Int)
    (h : ∀ i ∈ offs, (iloc df (i - 1)).isSome ∧ (iloc df i).isSome) :
    detectFrom df offs = some (offs.filter (crossHitAt df)) := by
  induction offs with
  | nil => rfl
  | cons i rest ih =>
    obtain ⟨h1, h2⟩ := h i (List.mem_cons_self i rest)
    obtain ⟨p, hp⟩ := Option.isSome_iff_exists.mp h1
    obtain ⟨c, hc⟩ := Option.isSome_iff_exists.mp h2
    have hrest := ih (fun j hj => h j (List.mem_cons_of_mem i hj))
    have hhit : crossHitAt df i = crossHit p c := by
      simp only [crossHitAt, hp, hc]
    simp only [detectFrom, hp, hc, hrest, List.filter_cons, hhit]
    by_cases hb : crossHit p c = true
    · simp [hb]
    · simp [hb]

lemma detectFrom_none (df : List Row) (offs : List Int) (i : Int) (hi : i ∈ offs)
    (h : iloc df (i - 1) = none ∨ iloc df i = none) :
    detectFrom df offs = none := by
  induction offs with
  | nil => cases hi
  | cons j rest ih =>
    rcases List.mem_cons.mp hi with rfl | hmem
    · rcases h with h | h
      · cases hc : iloc df i <;> simp [detectFrom, h, hc]
      · cases hp : iloc df (i - 1) <;> simp [detectFrom, h, hp]
    · cases hp : iloc df (j - 1) <;> cases hc : iloc df j <;>
        simp [detectFrom, hp, hc, ih hmem]

/-- C9: with a positive lookback, the detector's index accesses are all
in bounds exactly when the frame has at least `lookback + 1` rows; on
any shorter frame it hits an out-of-range access (an error). -/
theorem detect_strict_cross_bounds (df : List Row) (lookback : ℕ)
    (hlb : 0 < lookback) :
    (detect_strict_cross df lookback).isSome ↔ lookback + 1 ≤ df.length := by
  constructor
  · intro h
    by_contra hlen
    push_neg at hlen
    have hmem : (-(lookback : Int)) ∈ offsetRange lookback := by
      rw [mem_offsetRange]
      omega
    have hnone : iloc df (-(lookback : Int) - 1) = none := by
      have hiff := iloc_isSome_iff df (-(lookback : Int) - 1)
      cases h' : iloc df (-(lookback : Int) - 1) with
      | none => rfl
      | some p =>
        rw [h'] at hiff
        simp only [Option.isSome_some, true_iff] at hiff
        omega
    rw [detect_strict_cross, detectFrom_none df _ _ hmem (Or.inl hnone)] at h
    simp at h
  · intro hlen
    have hall : ∀ i ∈ offsetRange lookback,
        (iloc df (i - 1)).isSome ∧ (iloc df i).isSome := by
      intro i hi
      rw [mem_offsetRange] at hi
      constructor
      · rw [iloc_isSome_iff]
        omega
      · rw [iloc_isSome_iff]
        omega
    rw [detect_strict_cross, detectFrom_eq_filter df _ hall]
    simp

/-- C9 witness: a frame of 2 rows suffices for lookback 1. -/
theorem detect_strict_cross_bounds_witness :
    (detect_strict_cross [((some 1, some 2) : Row), (some 2, some 1)] 1).isSome ↔
      1 + 1 ≤ [((some 1, some 2) : Row), (some 2, some 1)].length :=
  detect_strict_cross_bounds [((some 1, some 2) : Row), (some 2, some 1)] 1
    (by decide)

/-- C2: when every access is in bounds, the detector emits, in ascending
offset order, exactly the offsets in `-lookback..-1` where all four of
prev.fast, prev.slow, curr.fast, curr.slow are defined, `prev.fast ≤
prev.slow` and `curr.fast > curr.slow`; an offset with an undefined
value, or where `curr.fast = curr.slow`, is never emitted. -/
theorem detect_strict_cross_spec (df : List Row) (lookback : ℕ)
    (hlb : 0 < lookback) (hlen : lookback + 1 ≤ df.length) :
    detect_strict_cross df lookback =
      some ((offsetRange lookback).filter (crossHitAt df)) ∧
    List.Pairwise (· < ·) ((offsetRange lookback).filter (crossHitAt df)) ∧
    (∀ i : Int, i ∈ (offsetRange lookback).filter (crossHitAt df) ↔
      (-(lookback : Int) ≤ i ∧ i < 0 ∧ crossHitAt df i = true)) ∧
    (∀ i : Int, crossHitAt df i = true ↔
      (∃ pf ps cf cs : ℚ, iloc df (i - 1) = some (some pf, some ps) ∧
        iloc df i = some (some cf, some cs) ∧ pf ≤ ps ∧ cs < cf)) ∧
    (∀ i : Int, ∀ r : Row, iloc df i = some r → r.1 = r.2 →
      crossHitAt df i = false) := by
  refine ⟨?_, ?_, ?_, ?_, ?_⟩
  · have hall : ∀ i ∈ offsetRange lookback,
        (iloc df (i - 1)).isSome ∧ (iloc df i).isSome := by
      intro i hi
      rw [mem_offsetRange] at hi
      exact ⟨by rw [iloc_isSome_iff]; omega, by rw [iloc_isSome_iff]; omega⟩
    exact detectFrom_eq_filter df _ hall
  · exact (offsetRange_pairwise lookback).filter _
  · intro i
    rw [List.mem_filter, mem_offsetRange]
    tauto
  · intro i
    constructor
    · intro hh
      unfold crossHitAt at hh
      cases hp : iloc df (i - 1) with
      | none => rw [hp] at hh; simp at hh
      | some p =>
        cases hc : iloc df i with
        | none => rw [hp, hc] at hh; simp at hh
        | some c =>
          rw [hp, hc] at hh
          obtain ⟨pf', ps'⟩ := p
          obtain ⟨cf', cs'⟩ := c
          cases pf' with
          | none => simp [crossHit] at hh
          | some pf =>
            cases ps' with
            | none => simp [crossHit] at hh
            | some ps =>
              cases cf' with
              | none => simp [crossHit] at hh
              | some cf =>
                cases cs' with
                | none => simp [crossHit] at hh
                | some cs =>
                  simp only [crossHit, Bool.and_eq_true, decide_eq_true_eq] at hh
                  exact ⟨pf, ps, cf, cs, rfl, rfl, hh.1, hh.2⟩
    · rintro ⟨pf, ps, cf, cs, hp, hc, hle, hlt⟩
      simp only [crossHitAt, hp, hc, crossHit, Bool.and_eq_true, decide_eq_true_eq]
      exact ⟨hle, hlt⟩
  · intro i r hr htie
    unfold crossHitAt
    rw [hr]
    cases hp : iloc df (i - 1) with
    | none => rfl
    | some p =>
      obtain ⟨cf', cs'⟩ := r
      cases cf' with
      | none =>
        obtain ⟨pf', ps'⟩ := p
        cases pf' <;> cases ps' <;> simp [crossHit]
      | some cf =>
        simp only at htie
        rw [← htie]
        obtain ⟨pf', ps'⟩ := p
        cases pf' with
        | none => simp [crossHit]
        | some pf =>
          cases ps' with
          | none => simp [crossHit]
          | some ps =>
            simp [crossHit]

/-- The spec's concrete example frame: fast = [1, 1, 1, 2] and
slow = [2, 1.5, 1.5, 1.5], aligned and all defined. -/
def exampleDf : List Row :=
  [(some 1, some 2), (some 1, some (3 / 2)), (some 1, some (3 / 2)),
    (some 2, some (3 / 2))]

/-- C2 witness: on the spec's example with lookback 3, the detector
yields exactly one event, at offset `-1`. -/
theorem detect_strict_cross_spec_witness :
    detect_strict_cross exampleDf 3 = some [-1] := by
  rw [(detect_strict_cross_spec exampleDf 3 (by decide) (by decide)).1]
  rw [show offsetRange 3 = [-3, -2, -1] from by decide]
  have h3 : crossHitAt exampleDf (-3) = false := by
    show crossHit (some 1, some 2) (some 1, some (3 / 2)) = false
    show (decide ((1 : ℚ) ≤ 2) && decide (((3 : ℚ) / 2) < 1)) = false
    rw [decide_eq_false (show ¬ (((3 : ℚ) / 2) < 1) by norm_num), Bool.and_false]
  have h2 : crossHitAt exampleDf (-2) = false := by
    show crossHit (some 1, some (3 / 2)) (some 1, some (3 / 2)) = false
    show (decide ((1 : ℚ) ≤ 3 / 2) && decide (((3 : ℚ) / 2) < 1)) = false
    rw [decide_eq_false (show ¬ (((3 : ℚ) / 2) < 1) by norm_num), Bool.and_false]
  have h1 : crossHitAt exampleDf (-1) = true := by
    show crossHit (some 1, some (3 / 2)) (some 2, some (3 / 2)) = true
    show (decide ((1 : ℚ) ≤ 3 / 2) && decide (((3 : ℚ) / 2) < 2)) = true
    rw [decide_eq_true (show ((1 : ℚ) ≤ 3 / 2) by norm_num),
      decide_eq_true (show (((3 : ℚ) / 2) < 2) by norm_num)]
    rfl
  rw [List.filter_cons, List.filter_cons, List.filter_cons, List.filter_nil]
  rw [h3, h2, h1]
  rfl

/-! ## MarketDataClient: okx_get_candles (watcher.py lines 96-135)

One parsed candle row. The six numeric columns are converted to floats
(`astype(float)`, modelled as ℚ); `ts` is converted to an instant
(millisecond integer, order-preserving); `confirm` stays a string. -/

structure Candle where
  ts : ℤ
  open_ : ℚ
  high : ℚ
  low : ℚ
  close : ℚ
  vol : ℚ
  volUsd : ℚ
  confirm : String
deriving DecidableEq

/-- Row order used by `df.sort_values("ts", ascending=True)`. -/
def tsLE (a b : Candle) : Prop := a.ts ≤ b.ts

instance : DecidableRel tsLE := fun a b => inferInstanceAs (Decidable (a.ts ≤ b.ts))

instance : IsTotal Candle tsLE := ⟨fun a b => le_total a.ts b.ts⟩

instance : IsTrans Candle tsLE := ⟨fun _ _ _ hab hbc => le_trans hab hbc⟩

/-- The sort step at watcher.py line 131. -/
def sortCandles (rows : List Candle) : List Candle := List.insertionSort tsLE rows

/-- Everything the response handling in `okx_get_candles` can face.
`transportError` is a raised transport exception, `httpError` a
non-success HTTP status (`raise_for_status`), `badPayload` a body whose
JSON shape cannot be read at all, and `payload` a parsed body carrying
the application status code and the data rows, each row `none` when its
string fields do not convert to numbers (`astype` raising). -/
inductive FetchOutcome where
  | transportError
  | httpError
  | badPayload
  | payload (code : String) (rows : List (Option Candle))

/-- `okx_get_candles` (watcher.py lines 116-135): every exception is
caught and yields an empty frame; a non-"0" application code yields an
empty frame; otherwise the rows are converted (all-or-nothing) and
sorted ascending by timestamp. -/
def okx_get_candles : FetchOutcome → List Candle
  | .transportError => []
  | .httpError => []
  | .badPayload => []
  | .payload code rows =>
    if code ≠ "0" then []
    else
      match rows.mapM id with
      | none => []
      | some cs => sortCandles cs

lemma sortCandles_sorted (rows : List Candle) :
    List.Sorted tsLE (sortCandles rows) :=
  List.sorted_insertionSort tsLE rows

lemma sortCandles_perm (rows : List Candle) :
    (sortCandles rows).Perm rows :=
  List.perm_insertionSort tsLE rows

/-- C3 (amended): every series returned by `okx_get_candles` is sorted
ascending (non-strictly) by timestamp, and it is strictly ascending
whenever the parsed rows of the response carry pairwise-distinct
timestamps. (Duplicate timestamps are not removed, see the
counterexample.) -/
theorem okx_get_candles_sorted (out : FetchOutcome) :
    List.Sorted tsLE (okx_get_candles out) ∧
    (∀ code : String, ∀ rows : List (Option Candle), ∀ cs : List Candle,
      out = FetchOutcome.payload code rows → rows.mapM id = some cs →
      (cs.map Candle.ts).Nodup →
      List.Sorted (fun a b => a.ts < b.ts) (okx_get_candles out)) := by
  constructor
  · cases out with
    | transportError => exact List.sorted_nil
    | httpError => exact List.sorted_nil
    | badPayload => exact List.sorted_nil
    | payload code rows =>
      simp only [okx_get_candles]
      by_cases hcode : code ≠ "0"
      · rw [if_pos hcode]
        exact List.sorted_nil
      · rw [if_neg hcode]
        cases hm : rows.mapM id with
        | none => exact List.sorted_nil
        | some cs => exact sortCandles_sorted cs
  · intro code rows cs hout hm hnodup
    subst hout
    simp only [okx_get_candles]
    by_cases hcode : code ≠ "0"
    · rw [if_pos hcode]
      exact List.sorted_nil
    · rw [if_neg hcode, hm]
      have hperm : (sortCandles cs).Perm cs := sortCandles_perm cs
      have hnodup' : ((sortCandles cs).map Candle.ts).Nodup :=
        ((hperm.map Candle.ts).nodup_iff).mpr hnodup
      have hne : List.Pairwise (fun a b => a.ts ≠ b.ts) (sortCandles cs) :=
        List.pairwise_map.mp hnodup'
      have hle : List.Pairwise tsLE (sortCandles cs) := sortCandles_sorted cs
      exact (hle.and hne).imp (fun h => lt_of_le_of_ne h.1 h.2)

/-- Two parsed rows sharing the timestamp 5. -/
def dupA : Candle := ⟨5, 1, 1, 1, 1, 1, 1, "1"⟩

/-- Second row with the same timestamp as `dupA`. -/
def dupB : Candle := ⟨5, 2, 2, 2, 2, 2, 2, "1"⟩

/-- C3 counterexample: on a successful response containing two rows with
the same timestamp, `okx_get_candles` returns a non-empty series that is
not strictly ascending by timestamp (the duplicate survives). -/
theorem okx_get_candles_dup_counterexample :
    okx_get_candles (FetchOutcome.payload "0" [some dupA, some dupB]) ≠ [] ∧
    ¬ List.Sorted (fun a b => a.ts < b.ts)
        (okx_get_candles (FetchOutcome.payload "0" [some dupA, some dupB])) := by
  have hres : okx_get_candles (FetchOutcome.payload "0" [some dupA, some dupB]) =
      [dupA, dupB] := by
    rfl
  rw [hres]
  constructor
  · simp
  · intro hsort
    have h5 : (5 : ℤ) < 5 := List.rel_of_sorted_cons hsort dupB (by simp)
    omega

/-- A parsed row with timestamp 3. -/
def cEarly : Candle := ⟨3, 1, 1, 1, 1, 1, 1, "1"⟩

/-- A parsed row with timestamp 7. -/
def cLate : Candle := ⟨7, 2, 2, 2, 2, 2, 2, "1"⟩

/-- C3 witness: a successful newest-first response with distinct
timestamps comes back strictly ascending. -/
theorem okx_get_candles_sorted_witness :
    List.Sorted (fun a b : Candle => a.ts < b.ts)
      (okx_get_candles (FetchOutcome.payload "0" [some cLate, some cEarly])) :=
  (okx_get_candles_sorted (FetchOutcome.payload "0" [some cLate, some cEarly])).2
    "0" [some cLate, some cEarly] [cLate, cEarly] rfl rfl (by decide)

/-- C10: every failure kind is represented as the empty series, which is
also what a successful fetch with no data returns, so callers cannot
distinguish the two, and no failing fetch carries partially parsed
candles. -/
theorem okx_get_candles_failure_empty :
    okx_get_candles FetchOutcome.transportError = [] ∧
    okx_get_candles FetchOutcome.httpError = [] ∧
    okx_get_candles FetchOutcome.badPayload = [] ∧
    (∀ code : String, ∀ rows : List (Option Candle), code ≠ "0" →
      okx_get_candles (FetchOutcome.payload code rows) = []) ∧
    (∀ code : String, ∀ rows : List (Option Candle), rows.mapM id = none →
      okx_get_candles (FetchOutcome.payload code rows) = []) ∧
    okx_get_candles (FetchOutcome.payload "0" []) = [] := by
  refine ⟨rfl, rfl, rfl, ?_, ?_, rfl⟩
  · intro code rows hcode
    simp only [okx_get_candles]
    rw [if_pos hcode]
  · intro code rows hm
    simp only [okx_get_candles]
    by_cases hcode : code ≠ "0"
    · rw [if_pos hcode]
    · rw [if_neg hcode, hm]

/-- C10 witness: a response with a non-"0" application code and one with
an unparseable row both come back empty. -/
theorem okx_get_candles_failure_empty_witness :
    okx_get_candles (FetchOutcome.payload "1" [some dupA]) = [] ∧
    okx_get_candles (FetchOutcome.payload "0" [some dupA, none]) = [] :=
  ⟨okx_get_candles_failure_empty.2.2.2.1 "1" [some dupA] (by decide),
    okx_get_candles_failure_empty.2.2.2.2.1 "0" [some dupA, none] (by rfl)⟩

/-! ## PollScheduler: run_once and main (watcher.py lines 160-200) -/

structure Token where
  name : String
  token_id : String
  chain_id : ℤ
  bar : String
deriving DecidableEq

/-- The EMA window pair (EMA_FAST, EMA_SLOW from configuration). -/
structure Config where
  emaFast : ℕ
  emaSlow : ℕ
deriving DecidableEq

/-- The data carried by one alert message (watcher.py lines 177-184):
token name, latest close, latest fast/slow EMA values, bar interval,
and all matched offsets. -/
structure Alert where
  name : String
  price : Option ℚ
  emaFastVal : Option ℚ
  emaSlowVal : Option ℚ
  bar : String
  offsets : List Int
deriving DecidableEq

/-- Observable per-token actions of one cycle. `crash` is an uncaught
exception escaping `run_once` (e.g. an IndexError from the detector). -/
inductive Ev where
  | alert (a : Alert)
  | delay
  | crash
deriving DecidableEq

def isAlert : Ev → Bool
  | Ev.alert _ => true
  | _ => false

/-- One token's step inside `run_once` (watcher.py lines 161-188): skip
with a delay when the fetch is empty or shorter than the slow window;
otherwise compute both EMA columns, run the detector with lookback 3,
and on one or more events send a single aggregated alert, then delay. -/
def process_token (cfg : Config) (t : Token) (closes : List ℚ) : List Ev :=
  if closes.length = 0 ∨ closes.length < cfg.emaSlow then [Ev.delay]
  else
    match detect_strict_cross
        ((calc_ema_series closes cfg.emaFast).zip (calc_ema_series closes cfg.emaSlow))
        3 with
    | none => [Ev.crash]
    | some crosses =>
      (if crosses = [] then []
       else
        [Ev.alert
          ⟨t.name, closes.getLast?,
            (calc_ema_series closes cfg.emaFast).getLast?.join,
            (calc_ema_series closes cfg.emaSlow).getLast?.join,
            t.bar, crosses⟩]) ++ [Ev.delay]

/-- `run_once` (watcher.py lines 160-188): process the tokens in order;
an uncaught exception aborts the remainder of the cycle. -/
def run_once (cfg : Config) (fetch : Token → List ℚ) : List Token → List Ev
  | [] => []
  | t :: ts =>
    let evs := process_token cfg t (fetch t)
    if Ev.crash ∈ evs then evs
    else evs ++ run_once cfg fetch ts

/-- C4: a token whose fetch came back empty or shorter than the slow
window produces no alert and no error, only the per-token delay, and the
cycle proceeds to the next token. -/
theorem run_once_skips_short (cfg : Config) (t : Token) (closes : List ℚ)
    (h : closes.length = 0 ∨ closes.length < cfg.emaSlow) :
    process_token cfg t closes = [Ev.delay] ∧
    (∀ fetch : Token → List ℚ, ∀ ts : List Token, fetch t = closes →
      run_once cfg fetch (t :: ts) = Ev.delay :: run_once cfg fetch ts) := by
  have h1 : process_token cfg t closes = [Ev.delay] := by
    unfold process_token
    rw [if_pos h]
  refine ⟨h1, ?_⟩
  intro fetch ts hf
  show (if Ev.crash ∈ process_token cfg t (fetch t) then process_token cfg t (fetch t)
    else process_token cfg t (fetch t) ++ run_once cfg fetch ts) = _
  rw [hf, h1]
  rw [if_neg (by decide)]
  rfl

/-- C4 witness: an empty fetch for a demo token yields exactly one delay
event and the cycle moves on. -/
theorem run_once_skips_short_witness :
    process_token ⟨144, 576⟩ ⟨"DEMO", "0xabc", 1, "15m"⟩ [] = [Ev.delay] :=
  (run_once_skips_short ⟨144, 576⟩ ⟨"DEMO", "0xabc", 1, "15m"⟩ [] (Or.inl rfl)).1

/-- C7: a token for which the detector returns a non-empty event list
produces exactly one alert message, aggregating all matched offsets and
carrying the token name, latest close, latest fast/slow EMA values and
bar interval, followed by the per-token delay. -/
theorem run_once_single_alert (cfg : Config) (t : Token) (closes : List ℚ)
    (crosses : List Int)
    (hlong : ¬ (closes.length = 0 ∨ closes.length < cfg.emaSlow))
    (hdet : detect_strict_cross
        ((calc_ema_series closes cfg.emaFast).zip (calc_ema_series closes cfg.emaSlow))
        3 = some crosses)
    (hne : crosses ≠ []) :
    process_token cfg t closes =
      [Ev.alert
        ⟨t.name, closes.getLast?,
          (calc_ema_series closes cfg.emaFast).getLast?.join,
          (calc_ema_series closes cfg.emaSlow).getLast?.join,
          t.bar, crosses⟩,
        Ev.delay] ∧
    ((process_token cfg t closes).filter isAlert).length = 1 := by
  have h1 : process_token cfg t closes =
      [Ev.alert
        ⟨t.name, closes.getLast?,
          (calc_ema_series closes cfg.emaFast).getLast?.join,
          (calc_ema_series closes cfg.emaSlow).getLast?.join,
          t.bar, crosses⟩,
        Ev.delay] := by
    unfold process_token
    rw [if_neg hlong]
    simp only [hdet]
    rw [if_neg hne]
    rfl
  refine ⟨h1, ?_⟩
  rw [h1]
  rfl

/-- C7 witness: with windows (1, 2) and closes [0, 6, 0, 4] the detector
fires at offset -1 and the token's cycle step carries exactly one alert
event. -/
theorem run_once_single_alert_witness :
    ((process_token ⟨1, 2⟩ ⟨"DEMO", "0xabc", 1, "15m"⟩
        [(0 : ℚ), 6, 0, 4]).filter isAlert).length = 1 := by
  have hzip : (calc_ema_series [(0 : ℚ), 6, 0, 4] 1).zip
        (calc_ema_series [(0 : ℚ), 6, 0, 4] 2) =
      [(some 0, none), (some 6, some 3), (some 0, some 1), (some 4, some 3)] := by
    norm_num [calc_ema_series, sma, emaRecAux, List.replicate]
  exact (run_once_single_alert ⟨1, 2⟩ ⟨"DEMO", "0xabc", 1, "15m"⟩
    [(0 : ℚ), 6, 0, 4] [-1] (by decide) (by rw [hzip]; decide) (by decide)).2

/-! ## The outer loop (watcher.py lines 190-200) -/

/-- Events observable from `main`: stop-flag consultations (with the
value read), per-token cycle events, and the inter-cycle sleep. -/
inductive MainEv where
  | check (b : Bool)
  | tok (e : Ev)
  | sleepPoll
deriving DecidableEq

/-- `main` (watcher.py lines 190-200), fuel-bounded: `flag` gives the
value of STOP at its n-th consultation; each iteration consults the flag
at the `while` header, runs a full cycle, consults it again, and sleeps
before the next iteration. -/
def main_loop (flag : ℕ → Bool) (cyc : ℕ → List Ev) : ℕ → ℕ → List MainEv
  | 0, _ => []
  | fuel + 1, k =>
    if flag (2 * k) then [MainEv.check true]
    else
      MainEv.check false :: (cyc k).map MainEv.tok ++
        (if flag (2 * k + 1) then [MainEv.check true]
         else MainEv.check false :: MainEv.sleepPoll :: main_loop flag cyc fuel (k + 1))

/-- Traces in which the stop flag is consulted exactly at cycle
boundaries: once before each cycle starts and once right after it
completes, with each cycle's event block appearing whole in between. -/
inductive BoundaryTrace (cyc : ℕ → List Ev) : ℕ → List MainEv → Prop where
  | fuelOut (k : ℕ) : BoundaryTrace cyc k []
  | stopped (k : ℕ) : BoundaryTrace cyc k [MainEv.check true]
  | lastCycle (k : ℕ) :
      BoundaryTrace cyc k
        (MainEv.check false :: (cyc k).map MainEv.tok ++ [MainEv.check true])
  | nextCycle (k : ℕ) (rest : List MainEv) : BoundaryTrace cyc (k + 1) rest →
      BoundaryTrace cyc k
        (MainEv.check false :: (cyc k).map MainEv.tok ++
          (MainEv.check false :: MainEv.sleepPoll :: rest))

/-- C8: the stop flag is consulted only at cycle boundaries (before a
cycle starts and immediately after it completes); a cycle's event block
contains no consultation, and absent an uncaught exception a cycle runs
to completion over its full token list. -/
theorem main_loop_checks_at_cycle_boundaries (cfg : Config)
    (fetch : ℕ → Token → List ℚ) (tokens : List Token)
    (flag : ℕ → Bool) (fuel k : ℕ) :
    BoundaryTrace (fun n => run_once cfg (fetch n) tokens) k
      (main_loop flag (fun n => run_once cfg (fetch n) tokens) fuel k) ∧
    (∀ n : ℕ, ∀ b : Bool,
      MainEv.check b ∉ (run_once cfg (fetch n) tokens).map MainEv.tok) ∧
    (∀ n : ℕ, (∀ t ∈ tokens, Ev.crash ∉ process_token cfg t (fetch n t)) →
      run_once cfg (fetch n) tokens =
        tokens.flatMap (fun t => process_token cfg t (fetch n t))) := by
  refine ⟨?_, ?_, ?_⟩
  · induction fuel generalizing k with
    | zero => exact BoundaryTrace.fuelOut k
    | succ fuel ih =>
      rw [main_loop]
      by_cases h1 : flag (2 * k)
      · rw [if_pos h1]
        exact BoundaryTrace.stopped k
      · rw [if_neg h1]
        by_cases h2 : flag (2 * k + 1)
        · rw [if_pos h2]
          exact BoundaryTrace.lastCycle k
        · rw [if_neg h2]
          exact BoundaryTrace.nextCycle k _ (ih (k + 1))
  · intro n b hmem
    rcases List.mem_map.mp hmem with ⟨e, _, he⟩
    cases he
  · intro n hnocrash
    induction tokens with
    | nil => rfl
    | cons t ts ih =>
      show (if Ev.crash ∈ process_token cfg t (fetch n t)
          then process_token cfg t (fetch n t)
          else process_token cfg t (fetch n t) ++ run_once cfg (fetch n) ts) = _
      rw [if_neg (hnocrash t (List.mem_cons_self t ts))]
      rw [ih (fun u hu => hnocrash u (List.mem_cons_of_mem t hu))]
      rw [List.flatMap_cons]

/-- A fetch oracle that always returns an empty series. -/
def zeroFetch : ℕ → Token → List ℚ := fun _ _ => []

/-- C8 witness: with the stop flag raised at the first consultation, the
trace is a single boundary check. -/
theorem main_loop_checks_witness :
    BoundaryTrace (fun n => run_once ⟨144, 576⟩ (zeroFetch n) []) 0
      (main_loop (fun _ => true)
        (fun n => run_once ⟨144, 576⟩ (zeroFetch n) []) 1 0) :=
  (main_loop_checks_at_cycle_boundaries ⟨144, 576⟩ zeroFetch []
    (fun _ => true) 1 0).1

/-! ## RequestSigner: okx_signature (watcher.py lines 91-94)

The source builds `timestamp + method + request_path + body`, UTF-8
encodes it, and returns the standard base64 encoding of the
HMAC-SHA-256 digest keyed by the secret. The digest primitives come
from Python's `hashlib`/`hmac`/`base64`; we implement them here from
their standards (FIPS 180-4, RFC 2104, RFC 4648), bytes as ℕ < 256 and
32-bit words as ℕ with explicit reduction mod 2^32. -/

def add32 (a b : ℕ) : ℕ := (a + b) % 2 ^ 32

def rotr32 (n x : ℕ) : ℕ := ((x >>> n) ||| (x <<< (32 - n))) % 2 ^ 32

def bsig0 (x : ℕ) : ℕ := rotr32 2 x ^^^ rotr32 13 x ^^^ rotr32 22 x

def bsig1 (x : ℕ) : ℕ := rotr32 6 x ^^^ rotr32 11 x ^^^ rotr32 25 x

def ssig0 (x : ℕ) : ℕ := rotr32 7 x ^^^ rotr32 18 x ^^^ (x >>> 3)

def ssig1 (x : ℕ) : ℕ := rotr32 17 x ^^^ rotr32 19 x ^^^ (x >>> 10)

def chF (x y z : ℕ) : ℕ := (x &&& y) ^^^ ((x ^^^ 0xffffffff) &&& z)

def majF (x y z : ℕ) : ℕ := (x &&& y) ^^^ (x &&& z) ^^^ (y &&& z)

/-- SHA-256 round constants (FIPS 180-4 §4.2.2), written in decimal. -/
def shaK : List ℕ :=
  [1116352408, 1899447441, 3049323471, 3921009573, 961987163,
   1508970993, 2453635748, 2870763221, 3624381080, 310598401,
   607225278, 1426881987, 1925078388, 2162078206, 2614888103,
   3248222580, 3835390401, 4022224774, 264347078, 604807628,
   770255983, 1249150122, 1555081692, 1996064986, 2554220882,
   2821834349, 2952996808, 3210313671, 3336571891, 3584528711,
   113926993, 338241895, 666307205, 773529912, 1294757372,
   1396182291, 1695183700, 1986661051, 2177026350, 2456956037,
   2730485921, 2820302411, 3259730800, 3345764771, 3516065817,
   3600352804, 4094571909, 275423344, 430227734, 506948616,
   659060556, 883997877, 958139571, 1322822218, 1537002063,
   1747873779, 1955562222, 2024104815, 2227730452, 2361852424,
   2428436474, 2756734187, 3204031479, 3329325298]

/-- SHA-256 initial hash value (FIPS 180-4 §5.3.3), written in decimal. -/
def shaH0 : List ℕ :=
  [1779033703, 3144134277, 1013904242, 2773480762,
   1359893119, 2600822924, 528734635, 1541459225]

/-- Big-endian bytes to 32-bit words. -/
def toWords : List ℕ → List ℕ
  | b0 :: b1 :: b2 :: b3 :: rest =>
    (b0 * 2 ^ 24 + b1 * 2 ^ 16 + b2 * 2 ^ 8 + b3) :: toWords rest
  | _ => []

/-- One 32-bit word as four big-endian bytes. -/
def wordBytes (w : ℕ) : List ℕ :=
  [w / 2 ^ 24 % 256, w / 2 ^ 16 % 256, w / 2 ^ 8 % 256, w % 256]

/-- The message length in bits as eight big-endian bytes. -/
def lenBytes8 (n : ℕ) : List ℕ :=
  [n / 2 ^ 56 % 256, n / 2 ^ 48 % 256, n / 2 ^ 40 % 256, n / 2 ^ 32 % 256,
   n / 2 ^ 24 % 256, n / 2 ^ 16 % 256, n / 2 ^ 8 % 256, n % 256]

/-- FIPS 180-4 §5.1.1 padding: 0x80, zeros to 56 mod 64, 64-bit length. -/
def sha256Pad (msg : List ℕ) : List ℕ :=
  msg ++ 0x80 :: (List.replicate ((119 - msg.length % 64) % 64) 0 ++
    lenBytes8 (8 * msg.length))

def chunksAux : ℕ → List ℕ → List (List ℕ)
  | 0, _ => []
  | _, [] => []
  | fuel + 1, l => l.take 64 :: chunksAux fuel (l.drop 64)

/-- Split into 64-byte blocks (the fuel only bounds recursion depth). -/
def chunks64 (l : List ℕ) : List (List ℕ) := chunksAux l.length l

/-- Message schedule: extend 16 words to 64 (FIPS 180-4 §6.2.2 step 1). -/
def schedule (ws : List ℕ) : List ℕ :=
  (List.range 48).foldl
    (fun acc t =>
      acc ++ [add32 (add32 (ssig1 (acc.getD (t + 14) 0)) (acc.getD (t + 9) 0))
        (add32 (ssig0 (acc.getD (t + 1) 0)) (acc.getD t 0))])
    ws

/-- One compression round (FIPS 180-4 §6.2.2 step 3). -/
def shaRound (st : List ℕ) (kw : ℕ × ℕ) : List ℕ :=
  match st with
  | [a, b, c, d, e, f, g, h] =>
    let t1 := add32 (add32 (add32 (add32 h (bsig1 e)) (chF e f g)) kw.1) kw.2
    let t2 := add32 (bsig0 a) (majF a b c)
    [add32 t1 t2, a, b, c, add32 d t1, e, f, g]
  | _ => st

/-- Compress one 64-byte block into the running hash. -/
def compress (hs : List ℕ) (block : List ℕ) : List ℕ :=
  let st := (shaK.zip (schedule (toWords block))).foldl shaRound hs
  (hs.zip st).map (fun p => add32 p.1 p.2)

/-- SHA-256 of a byte list, as 32 bytes. -/
def sha256 (msg : List ℕ) : List ℕ :=
  ((chunks64 (sha256Pad msg)).foldl compress shaH0).flatMap wordBytes

/-- RFC 2104 key preparation: hash keys longer than the 64-byte block,
then right-pad with zeros to the block size. -/
def hmacKey (key : List ℕ) : List ℕ :=
  let k0 := if 64 < key.length then sha256 key else key
  k0 ++ List.replicate (64 - k0.length) 0

/-- HMAC-SHA-256 (RFC 2104): H((K ⊕ opad) ++ H((K ⊕ ipad) ++ msg)). -/
def hmacSha256 (key msg : List ℕ) : List ℕ :=
  sha256 (((hmacKey key).map (fun b => b ^^^ 0x5c)) ++
    sha256 (((hmacKey key).map (fun b => b ^^^ 0x36)) ++ msg))

/-- The standard base64 alphabet (RFC 4648 §4). -/
def b64Alphabet : List Char :=
  "ABCDEFGHIJKLMNOPQRSTUVWXYZabcdefghijklmnopqrstuvwxyz0123456789+/".toList

def b64Char (n : ℕ) : Char := b64Alphabet.getD n 'A'

/-- Standard base64 encoding with padding (RFC 4648 §4). -/
def base64Encode : List ℕ → List Char
  | [] => []
  | [b0] => [b64Char (b0 / 4), b64Char (b0 % 4 * 16), '=', '=']
  | [b0, b1] => [b64Char (b0 / 4), b64Char (b0 % 4 * 16 + b1 / 16),
      b64Char (b1 % 16 * 4), '=']
  | b0 :: b1 :: b2 :: rest =>
    b64Char (b0 / 4) :: b64Char (b0 % 4 * 16 + b1 / 16) ::
      b64Char (b1 % 16 * 4 + b2 / 64) :: b64Char (b2 % 64) :: base64Encode rest

/-- UTF-8 encoding of one code point. -/
def utf8Char (n : ℕ) : List ℕ :=
  if n < 0x80 then [n]
  else if n < 0x800 then [0xc0 + n / 64, 0x80 + n % 64]
  else if n < 0x10000 then [0xe0 + n / 4096, 0x80 + n / 64 % 64, 0x80 + n % 64]
  else [0xf0 + n / 262144, 0x80 + n / 4096 % 64, 0x80 + n / 64 % 64,
    0x80 + n % 64]

/-- UTF-8 encoding of a string (`str.encode("utf-8")`). -/
def utf8Encode (s : String) : List ℕ := s.toList.flatMap (fun ch => utf8Char ch.toNat)

/-- `okx_signature` (watcher.py lines 91-94), with the secret made an
explicit first argument as in the RequestSigner contract. -/
def okx_signature (secret timestamp method request_path body : String) : String :=
  String.mk (base64Encode (hmacSha256 (utf8Encode secret)
    (utf8Encode (timestamp ++ method ++ request_path ++ body))))

set_option maxRecDepth 100000 in
/-- SHA-256 known-answer check: SHA256("abc") (FIPS 180-4 test vector). -/
lemma sha256_abc_vector :
    sha256 (utf8Encode "abc") =
      [0xba, 0x78, 0x16, 0xbf, 0x8f, 0x01, 0xcf, 0xea,
       0x41, 0x41, 0x40, 0xde, 0x5d, 0xae, 0x22, 0x23,
       0xb0, 0x03, 0x61, 0xa3, 0x96, 0x17, 0x7a, 0x9c,
       0xb4, 0x10, 0xff, 0x61, 0xf2, 0x00, 0x15, 0xad] := by
  decide

/-- Base64 known-answer check: base64("Man") = "TWFu" (RFC 4648). -/
lemma base64_man_vector : base64Encode [77, 97, 110] = "TWFu".toList := by
  decide

/-- C5: the signature is the standard base64 encoding of the
HMAC-SHA-256 digest, keyed by the secret, of the UTF-8 encoding of
`timestamp + method + path + body`, and the function is pure and
deterministic: identical inputs always yield the identical signature. -/
theorem okx_signature_spec :
    (∀ secret ts method path body : String,
      okx_signature secret ts method path body =
        String.mk (base64Encode (hmacSha256 (utf8Encode secret)
          (utf8Encode (ts ++ method ++ path ++ body))))) ∧
    (∀ s1 s2 t1 t2 m1 m2 p1 p2 b1 b2 : String,
      s1 = s2 → t1 = t2 → m1 = m2 → p1 = p2 → b1 = b2 →
      okx_signature s1 t1 m1 p1 b1 = okx_signature s2 t2 m2 p2 b2) := by
  refine ⟨fun _ _ _ _ _ => rfl, ?_⟩
  intro s1 s2 t1 t2 m1 m2 p1 p2 b1 b2 hs ht hm hp hb
  subst hs
  subst ht
  subst hm
  subst hp
  subst hb
  rfl

/-- C5 witness: determinism at one concrete input. -/
theorem okx_signature_spec_witness :
    okx_signature "sec" "1700000000.0" "GET" "/api/v5/dex/market/candles" "" =
      okx_signature "sec" "1700000000.0" "GET" "/api/v5/dex/market/candles" "" :=
  okx_signature_spec.2 "sec" "sec" "1700000000.0" "1700000000.0" "GET" "GET"
    "/api/v5/dex/market/candles" "/api/v5/dex/market/candles" "" ""
    rfl rfl rfl rfl rfl

end AlphaWatcher
